import Mathlib

set_option maxRecDepth 8192

/-!
Shallow embedding of `server.py`, the Intigriti Researcher API MCP server,
together with theorems checking the specification's claims against it.

The embedding follows the Python source closely:
* JSON-shaped Python values are modelled by `Json` (numbers restricted to
  integers; floating point is outside the embedding).
* Query-parameter dictionaries are association lists in insertion order.
* The HTTP layer is external: a response is a `HttpResponse` record and the
  network outcome of a dispatched call is passed in as a parameter.
* Python exceptions are modelled with `Except`; an uncaught exception is an
  `Except.error` result.
-/

namespace IntigritiServer

/-- JSON-shaped Python values as they flow through the server.  Numbers are
modelled as integers (`json` floats are outside this embedding). -/
inductive Json where
  | null : Json
  | bool (b : Bool) : Json
  | num (n : Int) : Json
  | str (s : String) : Json
  | arr (elems : List Json) : Json
  | obj (members : List (String × Json)) : Json

/-- Lookup in an association list with string keys, first match wins;
models Python `dict` access on the dictionaries built by the server. -/
def qlookup (k : String) : List (String × Json) → Option Json
  | [] => none
  | (k2, v) :: t => if k2 = k then some v else qlookup k t

/-- Keys of an association list, in insertion order. -/
def pkeys (l : List (String × Json)) : List String :=
  l.map Prod.fst

/-- A transient request envelope: HTTP method, endpoint path and the
query-parameter dictionary handed to `_make_request`. -/
structure Request where
  method : String
  endpoint : String
  params : List (String × Json)

/-- `IntigritiResearcherAPI.get_programs`: builds
`params = {"limit": min(limit, 500), "offset": offset}` and adds each of
`statusId`, `typeId`, `following` only when the corresponding argument is
not `None`, then requests `GET v1/programs`. -/
def get_programs (status_id type_id : Option Int) (following : Option Bool)
    (limit offset : Int) : Request :=
  let params := [("limit", Json.num (min limit 500)), ("offset", Json.num offset)]
  let params := params ++ (match status_id with
    | some s => [("statusId", Json.num s)]
    | none => [])
  let params := params ++ (match type_id with
    | some t => [("typeId", Json.num t)]
    | none => [])
  let params := params ++ (match following with
    | some f => [("following", Json.bool f)]
    | none => [])
  ⟨"GET", "v1/programs", params⟩

/-- Default of the `limit` parameter in the Python signature of
`get_programs` and `get_program_activities` (`limit: int = 20`). -/
def default_limit : Int := 20

/-- Default of the `offset` parameter in the Python signature of
`get_programs` and `get_program_activities` (`offset: int = 0`). -/
def default_offset : Int := 0

/-- `IntigritiResearcherAPI.get_program_activities`: builds
`params = {"limit": min(limit, 500), "offset": offset}` and adds each of
`createdSince`, `following` only when the corresponding argument is not
`None`, then requests `GET v1/programs/activities`. -/
def get_program_activities (created_since : Option Int) (following : Option Bool)
    (limit offset : Int) : Request :=
  let params := [("limit", Json.num (min limit 500)), ("offset", Json.num offset)]
  let params := params ++ (match created_since with
    | some c => [("createdSince", Json.num c)]
    | none => [])
  let params := params ++ (match following with
    | some f => [("following", Json.bool f)]
    | none => [])
  ⟨"GET", "v1/programs/activities", params⟩

/-! ## `_make_request` response classification -/

/-- Errors escaping `_make_request`: `IntigritiAPIError` instances raised or
re-raised by its handlers, and any other Python exception (e.g. the
`json.JSONDecodeError` a non-JSON success body raises, which no handler
catches). -/
inductive ApiError where
  | intigriti (msg : String)
  | pyException (msg : String)

/-- An HTTP response as `_make_request` sees it: status code, headers, the
body text, and the outcome of `response.json()` (the decode-error message is
abstract, supplied by the field). -/
structure HttpResponse where
  status : Nat
  headers : List (String × String)
  body : String
  jsonBody : Except String Json

/-- Case-insensitive header lookup, modelling `response.headers.get`. -/
def headerLookup (k : String) : List (String × String) → Option String
  | [] => none
  | (k2, v) :: t => if k2.toLower = k.toLower then some v else headerLookup k t

/-- `response.headers.get(key, default)`. -/
def headerGetD (hs : List (String × String)) (k d : String) : String :=
  match headerLookup k hs with
  | some v => v
  | none => d

/-- Fixed message of the `IntigritiAPIError` raised on HTTP 401. -/
def authFailedMsg : String := "Authentication failed. Check your API token."

/-- The response-classification logic of `_make_request`, in source order:
429 raises the rate-limit `IntigritiAPIError`, then 401 raises the fixed
authentication `IntigritiAPIError`, then `raise_for_status` turns any other
non-2xx status into an `HTTPStatusError` that the `except` clause re-raises
as `IntigritiAPIError` with status and body, and finally `response.json()`
either returns the parsed body or raises an uncaught decode error. -/
def handle_response (r : HttpResponse) : Except ApiError Json :=
  if r.status = 429 then
    .error (.intigriti ("Rate limited. Retry after "
      ++ headerGetD r.headers "Retry-After" "60" ++ " seconds."))
  else if r.status = 401 then
    .error (.intigriti authFailedMsg)
  else if r.status < 200 ∨ 300 ≤ r.status then
    .error (.intigriti ("API request failed: " ++ toString r.status ++ " - " ++ r.body))
  else
    match r.jsonBody with
    | .ok j => .ok j
    | .error m => .error (.pyException m)

/-! ## Client construction -/

/-- Python `a or b` on the token strings: the left operand wins when it is
truthy (a non-empty string), otherwise the right operand is used. -/
def pyOrStr (a b : Option String) : Option String :=
  match a with
  | some s => if s = "" then b else some s
  | none => b

/-- Message of the `ValueError` raised when no API token is resolvable. -/
def tokenRequiredMsg : String :=
  "API token is required. Set INTIGRITI_API_TOKEN environment variable or pass api_token parameter."

/-- Default `base_url` of `IntigritiResearcherAPI.__init__`. -/
def default_base_url : String := "https://api.intigriti.com/external/researcher"

/-- `s.rstrip('/')`: drop every trailing slash. -/
def rstripSlash (s : String) : String :=
  ⟨(s.data.reverse.dropWhile (fun c => c = '/')).reverse⟩

/-- The state a successfully constructed `IntigritiResearcherAPI` holds:
the slash-stripped base URL, the resolved token and the fixed headers.  The
constructor performs no network request; requests exist only as `Request`
values produced by the endpoint methods afterwards. -/
structure ClientState where
  base_url : String
  api_token : String
  headers : List (String × String)

/-- The fixed header dictionary built by `__init__`. -/
def mkHeaders (tok : String) : List (String × String) :=
  [("Authorization", "Bearer " ++ tok),
   ("Content-Type", "application/json"),
   ("User-Agent", "IntigritiMCPServer/1.0")]

/-- `IntigritiResearcherAPI.__init__`: resolves the token as
`api_token or os.getenv("INTIGRITI_API_TOKEN")` (`env` is the environment
variable, `none` when unset) and raises `ValueError` when the result is
falsy; otherwise stores the rstripped base URL, token and headers. -/
def intigriti_init (base_url : String) (api_token env : Option String) :
    Except String ClientState :=
  match pyOrStr api_token env with
  | none => .error tokenRequiredMsg
  | some t =>
    if t = "" then .error tokenRequiredMsg
    else .ok ⟨rstripSlash base_url, t, mkHeaders t⟩

/-! ## Claim C6: URL resolution in `_make_request` -/

/-- The `'{'` character (written by code point to keep braces out of
literals). -/
def lbraceChar : Char := '\x7b'

/-- The `'}'` character. -/
def rbraceChar : Char := '\x7d'

/-- Lowercase hexadecimal digit for `n < 16`. -/
def hexDigit (n : Nat) : Char :=
  if n < 10 then Char.ofNat (48 + n) else Char.ofNat (87 + n)

/-- Four-digit lowercase hexadecimal rendering of `n < 0x10000`, as in
Python's `'\\u%04x'`. -/
def hex4 (n : Nat) : List Char :=
  [hexDigit (n / 4096 % 16), hexDigit (n / 256 % 16), hexDigit (n / 16 % 16), hexDigit (n % 16)]

/-- Decimal digits of a natural number, most significant first. -/
def natDigits (n : Nat) : List Char :=
  if n < 10 then [Char.ofNat (48 + n)]
  else natDigits (n / 10) ++ [Char.ofNat (48 + n % 10)]
termination_by n
decreasing_by exact Nat.div_lt_self (by omega) (by omega)

/-- Python `str(int)`: decimal digits with a leading minus when negative. -/
def intChars (i : Int) : List Char :=
  if i < 0 then '-' :: natDigits i.natAbs else natDigits i.natAbs

/-- The escaping of one string character in `json.dumps` with
`ensure_ascii=False`: `\"`, `\\`, the two-character escapes for backspace,
form feed, newline, carriage return and tab, `\uXXXX` for the remaining
control characters below 0x20, and every other character written raw. -/
def escChar (c : Char) : List Char :=
  if c = '"' then ['\\', '"']
  else if c = '\\' then ['\\', '\\']
  else if c = Char.ofNat 8 then ['\\', 'b']
  else if c = Char.ofNat 12 then ['\\', 'f']
  else if c = '\n' then ['\\', 'n']
  else if c = '\r' then ['\\', 'r']
  else if c = '\t' then ['\\', 't']
  else if c.toNat < 32 then '\\' :: 'u' :: hex4 c.toNat
  else [c]

/-- Escape a whole string body. -/
def escStr : List Char → List Char
  | [] => []
  | c :: t => escChar c ++ escStr t

/-- The newline-plus-indentation `json.dumps(indent=2)` writes before an
element at nesting depth `k`. -/
def indentChars (k : Nat) : List Char :=
  '\n' :: List.replicate (2 * k) ' '

mutual

/-- Characters of `json.dumps(v, indent=2, ensure_ascii=False)` for a value
at nesting depth `k`. -/
def serVal : Nat → Json → List Char
  | _, .null => ['n', 'u', 'l', 'l']
  | _, .bool true => ['t', 'r', 'u', 'e']
  | _, .bool false => ['f', 'a', 'l', 's', 'e']
  | _, .num i => intChars i
  | _, .str s => '"' :: (escStr s.data ++ ['"'])
  | _, .arr [] => ['[', ']']
  | k, .arr (x :: xs) =>
    '[' :: (indentChars (k + 1) ++ serVal (k + 1) x ++ serItems (k + 1) xs
      ++ indentChars k ++ [']'])
  | _, .obj [] => [lbraceChar, rbraceChar]
  | k, .obj (m :: ms) =>
    lbraceChar :: (indentChars (k + 1) ++ serMember (k + 1) m ++ serMembers (k + 1) ms
      ++ indentChars k ++ [rbraceChar])

/-- The `"," newline indent element` runs after the first array element. -/
def serItems : Nat → List Json → List Char
  | _, [] => []
  | k, x :: xs => ',' :: (indentChars k ++ serVal k x ++ serItems k xs)

/-- One object member: quoted escaped key, `": "`, value. -/
def serMember : Nat → String × Json → List Char
  | k, (key, v) => '"' :: (escStr key.data ++ ['"', ':', ' '] ++ serVal k v)

/-- The `"," newline indent member` runs after the first object member. -/
def serMembers : Nat → List (String × Json) → List Char
  | _, [] => []
  | k, m :: ms => ',' :: (indentChars k ++ serMember k m ++ serMembers k ms)

end

/-- `json.dumps(result, indent=2, ensure_ascii=False)`: the formatting step
of `call_tool`. -/
def dumps (j : Json) : String :=
  ⟨serVal 0 j⟩

/-! ### A JSON parser (`json.loads`), to state the round-trip claim -/

/-- JSON whitespace. -/
def isWsChar (c : Char) : Bool :=
  c = ' ' || c = '\n' || c = '\t' || c = '\r'

/-- Skip leading JSON whitespace. -/
def skipWs : List Char → List Char
  | [] => []
  | c :: t => if isWsChar c then skipWs t else c :: t

/-- Value of one hexadecimal digit (both cases accepted). -/
def hexVal (c : Char) : Option Nat :=
  if c.isDigit then some (c.toNat - 48)
  else if 97 ≤ c.toNat ∧ c.toNat ≤ 102 then some (c.toNat - 87)
  else if 65 ≤ c.toNat ∧ c.toNat ≤ 70 then some (c.toNat - 55)
  else none

/-- The single-character string escapes. -/
def unescSimple (c : Char) : Option Char :=
  if c = '"' then some '"'
  else if c = '\\' then some '\\'
  else if c = '/' then some '/'
  else if c = 'b' then some (Char.ofNat 8)
  else if c = 'f' then some (Char.ofNat 12)
  else if c = 'n' then some '\n'
  else if c = 'r' then some '\r'
  else if c = 't' then some '\t'
  else none

/-- Parse a string body after the opening quote, up to and beyond the
closing quote, handling `\uXXXX` and the simple escapes and rejecting raw
control characters (strict mode). -/
def parseStrBody : List Char → Option (List Char × List Char)
  | [] => none
  | c :: t =>
    if c = '"' then some ([], t)
    else if c = '\\' then
      match t with
      | [] => none
      | e :: t2 =>
        if e = 'u' then
          match t2 with
          | h1 :: h2 :: h3 :: h4 :: t3 =>
            match hexVal h1, hexVal h2, hexVal h3, hexVal h4 with
            | some a, some b, some c2, some d =>
              match parseStrBody t3 with
              | some (cs, r) => some (Char.ofNat (4096 * a + 256 * b + 16 * c2 + d) :: cs, r)
              | none => none
            | _, _, _, _ => none
          | _ => none
        else
          match unescSimple e with
          | some d =>
            match parseStrBody t2 with
            | some (cs, r) => some (d :: cs, r)
            | none => none
          | none => none
    else if c.toNat < 32 then none
    else
      match parseStrBody t with
      | some (cs, r) => some (c :: cs, r)
      | none => none

/-- Take the leading run of decimal digits. -/
def takeDigits : List Char → List Char × List Char
  | [] => ([], [])
  | c :: t =>
    if c.isDigit then
      let (ds, r) := takeDigits t
      (c :: ds, r)
    else ([], c :: t)

/-- Numeric value of a digit run. -/
def digitsVal (ds : List Char) : Nat :=
  ds.foldl (fun a c => 10 * a + (c.toNat - 48)) 0

mutual

/-- Fuel-indexed JSON value parser (numbers restricted to integers, which
is all the serializer emits).  Returns the value and the unconsumed
suffix. -/
def parseVal : Nat → List Char → Option (Json × List Char)
  | 0, _ => none
  | Nat.succ n, s =>
    match skipWs s with
    | [] => none
    | c :: t =>
      if c = '"' then
        match parseStrBody t with
        | some (cs, r) => some (.str ⟨cs⟩, r)
        | none => none
      else if c = '[' then
        match skipWs t with
        | [] => none
        | c2 :: r =>
          if c2 = ']' then some (.arr [], r)
          else
            match parseItems n (c2 :: r) with
            | some (l, r2) => some (.arr l, r2)
            | none => none
      else if c = lbraceChar then
        match skipWs t with
        | [] => none
        | c2 :: r =>
          if c2 = rbraceChar then some (.obj [], r)
          else
            match parseMembers n (c2 :: r) with
            | some (l, r2) => some (.obj l, r2)
            | none => none
      else if c = 'n' then
        match t with
        | 'u' :: 'l' :: 'l' :: r => some (.null, r)
        | _ => none
      else if c = 't' then
        match t with
        | 'r' :: 'u' :: 'e' :: r => some (.bool true, r)
        | _ => none
      else if c = 'f' then
        match t with
        | 'a' :: 'l' :: 's' :: 'e' :: r => some (.bool false, r)
        | _ => none
      else if c = '-' then
        match takeDigits t with
        | ([], _) => none
        | (ds, r) => some (.num (-(digitsVal ds : Int)), r)
      else if c.isDigit then
        match takeDigits (c :: t) with
        | (ds, r) => some (.num (digitsVal ds), r)
      else none

/-- Array items after the first item's start, ending at `']'`. -/
def parseItems : Nat → List Char → Option (List Json × List Char)
  | 0, _ => none
  | Nat.succ n, s =>
    match parseVal n s with
    | none => none
    | some (v, r) =>
      match skipWs r with
      | ',' :: r2 =>
        match parseItems n r2 with
        | some (vs, r3) => some (v :: vs, r3)
        | none => none
      | ']' :: r2 => some ([v], r2)
      | _ => none

/-- Object members after the first member's start, ending at `'}'`. -/
def parseMembers : Nat → List Char → Option (List (String × Json) × List Char)
  | 0, _ => none
  | Nat.succ n, s =>
    match skipWs s with
    | '"' :: t =>
      match parseStrBody t with
      | none => none
      | some (ks, r) =>
        match skipWs r with
        | ':' :: r2 =>
          match parseVal n r2 with
          | none => none
          | some (v, r3) =>
            match skipWs r3 with
            | ',' :: r4 =>
              match parseMembers n r4 with
              | some (ms, r5) => some ((⟨ks⟩, v) :: ms, r5)
              | none => none
            | c :: r4 => if c = rbraceChar then some ([(⟨ks⟩, v)], r4) else none
            | [] => none
        | _ => none
    | _ => none

end

/-- `json.loads` on the serialized text: parse one value with fuel bounded
by the input length and require only whitespace to remain. -/
def parseJson (s : String) : Option Json :=
  match parseVal (s.length + 1) s.data with
  | some (v, r) => if skipWs r = [] then some v else none
  | none => none

mutual

/-- Fuel sufficient for `parseVal` on the serialization of a value. -/
def jfuel : Json → Nat
  | .arr [] => 1
  | .arr (x :: xs) => 1 + jfuelItems (x :: xs)
  | .obj [] => 1
  | .obj (m :: ms) => 1 + jfuelMembers (m :: ms)
  | _ => 1

/-- Fuel sufficient for `parseItems` on serialized items. -/
def jfuelItems : List Json → Nat
  | [] => 0
  | x :: xs => 1 + max (jfuel x) (jfuelItems xs)

/-- Fuel sufficient for `parseMembers` on serialized members. -/
def jfuelMembers : List (String × Json) → Nat
  | [] => 0
  | (_, v) :: ms => 1 + max (jfuel v) (jfuelMembers ms)

end

/-! ## Tool dispatch (`call_tool`) and resources (`read_resource`) -/

/-- A `types.TextContent` block: the `type` field is always `"text"`. -/
structure TextContent where
  ctype : String
  text : String

/-- Names of the six tools in the static catalog of `list_tools`. -/
def toolNames : List String :=
  ["get_programs", "get_program_details", "get_program_activities",
   "get_program_domains", "get_program_rules_of_engagement", "call_custom_endpoint"]

/-- Outcome of the API call a dispatched tool handler awaits; the network
is external, so the outcome is a parameter: a JSON result, a raised
`IntigritiAPIError`, or any other raised exception (including a `KeyError`
for a missing required argument). -/
inductive Outcome where
  | ok (j : Json)
  | apiErr (msg : String)
  | pyErr (msg : String)

/-- The lazy singleton step shared by `call_tool` and `read_resource`:
`if not api_client: api_client = IntigritiResearcherAPI()` with the default
base URL, no explicit token and the environment variable `env`. -/
def ensure_client (client : Option ClientState) (env : Option String) :
    Except String ClientState :=
  match client with
  | some c => .ok c
  | none => intigriti_init default_base_url none env

/-- `call_tool(name, arguments)`: first the lazy client construction, whose
`ValueError` is caught and rendered as a configuration-error text; then
dispatch by exact name: a catalog name runs its handler inside the
`try`/`except` pair (a successful result is pretty-printed with `dumps`,
an `IntigritiAPIError` becomes an `API error:` text, any other exception an
`Error:` text), and any other name returns the `Unknown tool:` text.  Every
path returns a text content list; nothing is raised to the host. -/
def call_tool (client : Option ClientState) (env : Option String)
    (name : String) (arguments : List (String × Json)) (outcome : Outcome) :
    List TextContent :=
  match ensure_client client env with
  | .error e => [⟨"text", "Configuration error: " ++ e⟩]
  | .ok _ =>
    if name ∈ toolNames then
      match outcome with
      | .ok j => [⟨"text", dumps j⟩]
      | .apiErr m => [⟨"text", "API error: " ++ m⟩]
      | .pyErr m => [⟨"text", "Error: " ++ m⟩]
    else
      [⟨"text", "Unknown tool: " ++ name⟩]

/-- Does `pat` occur as a prefix of `s`? -/
def matchesAt (s pat : List Char) : Bool :=
  match pat with
  | [] => true
  | p :: pt =>
    match s with
    | [] => false
    | c :: ct => c = p && matchesAt ct pt

/-- Does `pat` occur contiguously somewhere in `s`? -/
def containsAux (s pat : List Char) : Bool :=
  match s with
  | [] => pat.isEmpty
  | _ :: t => matchesAt s pat || containsAux t pat

/-- Contiguous substring test on strings. -/
def strContains (s pat : String) : Bool :=
  containsAux s.data pat.data

/-- Prefix test on strings. -/
def strStartsWith (s pat : String) : Bool :=
  matchesAt s.data pat.data

mutual

/-- Python `repr()` on JSON-shaped values, as `str()` of a container uses
it for the elements: `None`/`True`/`False`, decimal integers,
single-quoted strings (quote/control-character escaping inside `repr` of a
string is outside the modelled domain), bracketed lists and braced dicts
with `", "` separators. -/
def pyRepr : Json → String
  | .null => "None"
  | .bool true => "True"
  | .bool false => "False"
  | .num i => ⟨intChars i⟩
  | .str s => "\x27" ++ s ++ "\x27"
  | .arr [] => "[]"
  | .arr (x :: xs) => "[" ++ pyRepr x ++ pyReprItems xs ++ "]"
  | .obj [] => "\x7b\x7d"
  | .obj (m :: ms) => "\x7b" ++ pyReprMember m ++ pyReprMembers ms ++ "\x7d"

/-- Remaining list elements in a Python `repr`. -/
def pyReprItems : List Json → String
  | [] => ""
  | x :: xs => ", " ++ pyRepr x ++ pyReprItems xs

/-- One dict member in a Python `repr`. -/
def pyReprMember : String × Json → String
  | (k, v) => "\x27" ++ k ++ "\x27: " ++ pyRepr v

/-- Remaining dict members in a Python `repr`. -/
def pyReprMembers : List (String × Json) → String
  | [] => ""
  | m :: ms => ", " ++ pyReprMember m ++ pyReprMembers ms

end

/-- Python `str()` as an f-string interpolation applies it: strings
verbatim, everything else via `repr`. -/
def pyStr : Json → String
  | .str s => s
  | v => pyRepr v

/-- `read_resource` on the status URI `intigriti://api/status`.  The lazy
client construction stands *outside* the `try`, so its `ValueError`
propagates out (an `Except.error`); afterwards the probe
`get_programs(limit=1)` runs inside `try`/`except Exception`: a successful
dict renders the ✅ text with `programs.get('maxCount', 'Unknown')`, and
any raised error renders the ❌ text with the error's message. -/
def read_resource_status (client : Option ClientState) (env : Option String)
    (probe : Except String (List (String × Json))) : Except String String :=
  match ensure_client client env with
  | .error e => .error e
  | .ok _ =>
    match probe with
    | .ok programs =>
      .ok ("✅ API Connected\nTotal programs accessible: "
        ++ pyStr ((qlookup "maxCount" programs).getD (.str "Unknown")))
    | .error e => .ok ("❌ API Connection Failed\nError: " ++ e)

/-! ## Claim C9: the formatting round-trip -/

/-- Every character of the run is JSON whitespace. -/
def wsRun (l : List Char) : Prop := ∀ c ∈ l, isWsChar c = true

/-- The first character (if any) is not a decimal digit — the condition
under which a serialized number is parsed back without absorbing the
suffix. -/
def noDigitHead (l : List Char) : Prop := ∀ c, l.head? = some c → c.isDigit = false

/-- The ten decimal digit characters. -/
def decDigits : List Char := ['0', '1', '2', '3', '4', '5', '6', '7', '8', '9']

/-! ## Claims C1, C7: parameter marshalling -/

/-- C1: in every `get_programs` and `get_program_activities` call the
outgoing `limit` query value is `min(limit, 500)`: values over 500 are
clamped to 500, values at most 500 pass through unchanged, and the request
is still issued (both methods always produce a `GET` request, never a
rejection). -/
theorem limit_clamped_to_500 (status_id type_id created_since : Option Int)
    (following : Option Bool) (limit offset : Int) :
    (qlookup "limit" (get_programs status_id type_id following limit offset).params
        = some (.num (min limit 500))
      ∧ qlookup "limit" (get_program_activities created_since following limit offset).params
        = some (.num (min limit 500))
      ∧ (get_programs status_id type_id following limit offset).method = "GET"
      ∧ (get_program_activities created_since following limit offset).method = "GET")
    ∧ (limit ≤ 500 → min limit 500 = limit)
    ∧ (500 < limit → min limit 500 = 500) := by
  refine ⟨⟨?_, ?_, ?_, ?_⟩, fun h => min_eq_left h, fun h => min_eq_right (le_of_lt h)⟩
  · simp [get_programs, qlookup]
  · simp [get_program_activities, qlookup]
  · rfl
  · rfl

/-- Witness for `limit_clamped_to_500` at the concrete over-limit request
`limit = 600`: the outgoing value is 500. -/
theorem limit_clamped_to_500_witness :
    (500 : Int) < 600
    ∧ qlookup "limit" (get_programs none none none 600 0).params = some (.num 500) := by
  have h := limit_clamped_to_500 none none none none 600 0
  exact ⟨by norm_num, by
    have h1 := h.1.1
    have h2 := h.2.2 (by norm_num)
    rw [h2] at h1
    exact h1⟩

/-- C7: unset optional filters are entirely absent from the outgoing query
dictionary, while `limit` and `offset` are always present; the Python
signature defaults are 20 and 0, which marshal to query values 20 and 0. -/
theorem optional_filters_absent (status_id type_id created_since : Option Int)
    (following : Option Bool) (limit offset : Int) :
    ("limit" ∈ pkeys (get_programs status_id type_id following limit offset).params
      ∧ "offset" ∈ pkeys (get_programs status_id type_id following limit offset).params
      ∧ ("statusId" ∈ pkeys (get_programs status_id type_id following limit offset).params
          ↔ status_id ≠ none)
      ∧ ("typeId" ∈ pkeys (get_programs status_id type_id following limit offset).params
          ↔ type_id ≠ none)
      ∧ ("following" ∈ pkeys (get_programs status_id type_id following limit offset).params
          ↔ following ≠ none))
    ∧ ("limit" ∈ pkeys (get_program_activities created_since following limit offset).params
      ∧ "offset" ∈ pkeys (get_program_activities created_since following limit offset).params
      ∧ ("createdSince" ∈ pkeys (get_program_activities created_since following limit offset).params
          ↔ created_since ≠ none)
      ∧ ("following" ∈ pkeys (get_program_activities created_since following limit offset).params
          ↔ following ≠ none))
    ∧ qlookup "limit" (get_programs status_id type_id following default_limit offset).params
        = some (.num 20)
    ∧ qlookup "offset" (get_programs status_id type_id following limit default_offset).params
        = some (.num 0)
    ∧ qlookup "limit" (get_program_activities created_since following default_limit offset).params
        = some (.num 20)
    ∧ qlookup "offset" (get_program_activities created_since following limit default_offset).params
        = some (.num 0) := by
  refine ⟨⟨?_, ?_, ?_, ?_, ?_⟩, ⟨?_, ?_, ?_, ?_⟩, ?_, ?_, ?_, ?_⟩ <;>
    cases status_id <;> cases type_id <;> cases created_since <;> cases following <;>
    simp [get_programs, get_program_activities, pkeys, qlookup, default_limit, default_offset]

/-! ## Claims C2, C3: 401 and 429 classification -/

/-- C2: every HTTP 401 response makes `_make_request` raise an
`IntigritiAPIError` whose message is exactly the fixed string
`"Authentication failed. Check your API token."`; the theorem quantifies
over the headers, body and parsed body, so no part of the response body can
influence (or appear in) the message. -/
theorem auth_error_fixed_message (r : HttpResponse) (h : r.status = 401) :
    handle_response r = .error (.intigriti "Authentication failed. Check your API token.") := by
  simp [handle_response, h, authFailedMsg]

/-- Witness for `auth_error_fixed_message`: a concrete 401 response whose
body is an arbitrary secret; the error message is the fixed string. -/
theorem auth_error_fixed_message_witness :
    handle_response ⟨401, [("X-Secret", "s3cr3t")], "secret body text", .error "not json"⟩
      = .error (.intigriti "Authentication failed. Check your API token.") :=
  auth_error_fixed_message ⟨401, [("X-Secret", "s3cr3t")], "secret body text", .error "not json"⟩ rfl

/-- C3: every HTTP 429 response makes `_make_request` raise an
`IntigritiAPIError` built from the `Retry-After` header: with the header
present with value `v` the message is
`"Rate limited. Retry after " ++ v ++ " seconds."` (so it contains `v`),
and with the header absent the default `"60"` is used.  The classification
returns at once: no retry request exists in `_make_request`. -/
theorem rate_limit_retry_after (r : HttpResponse) (h : r.status = 429) :
    (∀ v, headerLookup "Retry-After" r.headers = some v →
      handle_response r = .error (.intigriti ("Rate limited. Retry after " ++ v ++ " seconds."))
        ∧ ∃ a b, ("Rate limited. Retry after " ++ v ++ " seconds.") = a ++ v ++ b)
    ∧ (headerLookup "Retry-After" r.headers = none →
      handle_response r = .error (.intigriti "Rate limited. Retry after 60 seconds.")) := by
  constructor
  · intro v hv
    constructor
    · simp [handle_response, h, headerGetD, hv]
    · exact ⟨"Rate limited. Retry after ", " seconds.", rfl⟩
  · intro hv
    simp [handle_response, h, headerGetD, hv]

/-- Witness for `rate_limit_retry_after`: `Retry-After: 120` yields the
message containing `120`, and an absent header yields the default 60. -/
theorem rate_limit_retry_after_witness :
    handle_response ⟨429, [("Retry-After", "120")], "", .error "e"⟩
      = .error (.intigriti "Rate limited. Retry after 120 seconds.")
    ∧ handle_response ⟨429, [], "", .error "e"⟩
      = .error (.intigriti "Rate limited. Retry after 60 seconds.") := by
  constructor
  · exact ((rate_limit_retry_after ⟨429, [("Retry-After", "120")], "", .error "e"⟩ rfl).1
      "120" (by simp [headerLookup])).1
  · exact (rate_limit_retry_after ⟨429, [], "", .error "e"⟩ rfl).2 (by simp [headerLookup])

/-! ## Claim C5: construction-time token check -/

/-- C5: constructing the client with no explicit token and the environment
variable unset or empty raises `ValueError` immediately (the constructor is
pure state set-up: no `Request` is ever produced by it), while any
non-empty token from either source makes construction succeed. -/
theorem init_requires_token (base : String) (env : Option String) :
    ((env = none ∨ env = some "") → intigriti_init base none env = .error tokenRequiredMsg)
    ∧ (∀ t, t ≠ "" → intigriti_init base (some t) env
        = .ok ⟨rstripSlash base, t, mkHeaders t⟩)
    ∧ (∀ t, t ≠ "" → intigriti_init base none (some t)
        = .ok ⟨rstripSlash base, t, mkHeaders t⟩) := by
  refine ⟨?_, ?_, ?_⟩
  · rintro (rfl | rfl) <;> simp [intigriti_init, pyOrStr]
  · intro t ht
    simp [intigriti_init, pyOrStr, ht]
  · intro t ht
    simp [intigriti_init, pyOrStr, ht]

/-- Witness for `init_requires_token`: with defaults and no environment
token the constructor fails with the configuration `ValueError`; with the
environment token set it succeeds. -/
theorem init_requires_token_witness :
    intigriti_init default_base_url none none = .error tokenRequiredMsg
    ∧ intigriti_init default_base_url none (some "tok")
        = .ok ⟨rstripSlash default_base_url, "tok", mkHeaders "tok"⟩ := by
  constructor
  · exact (init_requires_token default_base_url none).1 (Or.inl rfl)
  · exact (init_requires_token default_base_url none).2.2 "tok" (by simp)

/-- C10: with no client constructed yet and no resolvable token,
`call_tool` returns the configuration-error text for *every* tool name,
argument mapping and would-be network outcome — names outside the catalog
included, which in this state do not produce the `Unknown tool` result. -/
theorem config_check_precedes_dispatch (env : Option String)
    (name : String) (arguments : List (String × Json)) (outcome : Outcome)
    (henv : env = none ∨ env = some "") :
    call_tool none env name arguments outcome
      = [⟨"text", "Configuration error: " ++ tokenRequiredMsg⟩]
    ∧ strStartsWith ("Configuration error: " ++ tokenRequiredMsg) "Configuration error:" = true
    ∧ strContains ("Configuration error: " ++ tokenRequiredMsg) "Unknown tool" = false := by
  refine ⟨?_, by decide, by decide⟩
  rcases henv with rfl | rfl <;>
    simp [call_tool, ensure_client, intigriti_init, pyOrStr]

/-- Witness for `config_check_precedes_dispatch`: the not-in-catalog name
`"frobnicate"` with the environment unset still yields the
configuration-error text. -/
theorem config_check_precedes_dispatch_witness :
    call_tool none none "frobnicate" [] (.ok .null)
      = [⟨"text", "Configuration error: " ++ tokenRequiredMsg⟩] :=
  (config_check_precedes_dispatch none "frobnicate" [] (.ok .null) (Or.inl rfl)).1

/-! ## Claim C4: unknown tool names -/

/-- C4 counterexample: the claim quantifies over every name and argument
mapping, but in the reachable state with no client and no token an unknown
name yields the configuration-error text, which does not contain
`"Unknown tool"`. -/
theorem unknown_tool_claim_counterexample :
    (call_tool none none "not_a_tool" [] (.ok .null)
        = [⟨"text", "Configuration error: " ++ tokenRequiredMsg⟩])
    ∧ strContains ("Configuration error: " ++ tokenRequiredMsg) "Unknown tool" = false := by
  refine ⟨?_, by decide⟩
  simp [call_tool, ensure_client, intigriti_init, pyOrStr]

/-- C4 amended: once a client exists (or a token is resolvable so the lazy
construction succeeds), `call_tool` on any name outside the six-name
catalog returns the single `Unknown tool:` text — which contains
`"Unknown tool"` — for every argument mapping and outcome; and in every
state `call_tool` returns a text content list (its Python body catches
`IntigritiAPIError` and `Exception`, and the construction failure is
caught as `ValueError`), so nothing is raised to the host. -/
theorem unknown_tool_amended (client : Option ClientState) (env : Option String)
    (name : String) (arguments : List (String × Json)) (outcome : Outcome)
    (hknown : name ∉ toolNames)
    (hclient : (ensure_client client env).isOk = true) :
    call_tool client env name arguments outcome = [⟨"text", "Unknown tool: " ++ name⟩]
    ∧ (∃ a b, "Unknown tool: " ++ name = a ++ "Unknown tool" ++ b) := by
  constructor
  · match hc : ensure_client client env with
    | .ok c => simp [call_tool, hc, hknown]
    | .error e => rw [hc] at hclient; simp [Except.isOk, Except.toBool] at hclient
  · refine ⟨"", ": " ++ name, ?_⟩
    apply String.ext
    simp [String.data_append,
      show ("Unknown tool: ").data = ("Unknown tool").data ++ (": ").data from by decide]

/-- Witness for `unknown_tool_amended`: with a constructed client, the
unknown name `"frobnicate"` yields the `Unknown tool:` text. -/
theorem unknown_tool_amended_witness :
    call_tool (some ⟨default_base_url, "tok", mkHeaders "tok"⟩) none "frobnicate" [] (.ok .null)
      = [⟨"text", "Unknown tool: frobnicate"⟩] := by
  have h := (unknown_tool_amended (some ⟨default_base_url, "tok", mkHeaders "tok"⟩) none
    "frobnicate" [] (.ok .null) (by decide) (by rfl)).1
  simpa using h

/-! ## Claim C8: the status resource -/

/-- C8 counterexample: with no client and no token, the status-resource
read raises the construction `ValueError` out of `read_resource` (the lazy
construction stands before the `try` block), so not every error arising
during the read is captured. -/
theorem read_resource_status_claim_counterexample :
    read_resource_status none none (.ok [("maxCount", .num 42)])
      = .error tokenRequiredMsg := by
  simp [read_resource_status, ensure_client, intigriti_init, pyOrStr]

/-- C8 amended: when the client already exists, a successful one-item probe
whose dict carries `maxCount = v` renders the ✅-marked text ending in
`str(v)` (so `42` yields a text containing `"42"`), and a probe error `e`
renders the ❌-marked text carrying the error message, returned rather than
raised; only a client-construction failure (no client, no token) escapes
`read_resource` as an exception. -/
theorem read_resource_status_amended (c : ClientState) (env : Option String)
    (probe : Except String (List (String × Json))) :
    (∀ programs v, probe = .ok programs → qlookup "maxCount" programs = some v →
      read_resource_status (some c) env probe
        = .ok ("✅ API Connected\nTotal programs accessible: " ++ pyStr v))
    ∧ (∀ e, probe = .error e →
      read_resource_status (some c) env probe
        = .ok ("❌ API Connection Failed\nError: " ++ e)) := by
  constructor
  · intro programs v hp hv
    simp [read_resource_status, ensure_client, hp, hv]
  · intro e hp
    simp [read_resource_status, ensure_client, hp]

/-- Witness for `read_resource_status_amended`: `maxCount = 42` renders the
✅ text containing `"42"`, and a probe failure renders the ❌ text with the
message. -/
theorem read_resource_status_amended_witness :
    read_resource_status (some ⟨default_base_url, "tok", mkHeaders "tok"⟩) none
        (.ok [("maxCount", .num 42), ("records", .arr [])])
      = .ok "✅ API Connected\nTotal programs accessible: 42"
    ∧ read_resource_status (some ⟨default_base_url, "tok", mkHeaders "tok"⟩) none
        (.error "Network error: boom")
      = .ok "❌ API Connection Failed\nError: Network error: boom" := by
  constructor
  · have h := (read_resource_status_amended ⟨default_base_url, "tok", mkHeaders "tok"⟩ none
      (.ok [("maxCount", .num 42), ("records", .arr [])])).1
      [("maxCount", .num 42), ("records", .arr [])] (.num 42) rfl (by simp [qlookup])
    rw [h]
    have h42 : pyStr (.num 42) = "42" := by
      simp [pyStr, pyRepr, intChars, natDigits]
    rw [h42]
    exact congrArg Except.ok (by decide)
  · exact (read_resource_status_amended ⟨default_base_url, "tok", mkHeaders "tok"⟩ none
      (.error "Network error: boom")).2 "Network error: boom" rfl

theorem skipWs_append (ws r : List Char) (h : wsRun ws) : skipWs (ws ++ r) = skipWs r := by
  induction ws with
  | nil => simp
  | cons c t ih =>
    have hc := h c (by simp)
    simp only [List.cons_append, skipWs, hc, if_true]
    exact ih (fun c2 hc2 => h c2 (by simp [hc2]))

theorem skipWs_cons_not (c : Char) (r : List Char) (h : isWsChar c = false) :
    skipWs (c :: r) = c :: r := by
  simp [skipWs, h]

theorem indentChars_wsRun (k : Nat) : wsRun (indentChars k) := by
  intro c hc
  simp [indentChars, List.mem_replicate] at hc
  rcases hc with rfl | ⟨_, rfl⟩ <;> rfl

theorem mem_decDigits_of_lt (d : Nat) (h : d < 10) : Char.ofNat (48 + d) ∈ decDigits := by
  interval_cases d <;> decide

theorem decDigits_isDigit : ∀ c ∈ decDigits, c.isDigit = true := by decide

theorem natDigits_mem (n : Nat) : ∀ c ∈ natDigits n, c ∈ decDigits := by
  induction n using Nat.strong_induction_on with
  | _ n ih =>
    intro c hc
    by_cases h : n < 10
    · rw [natDigits, if_pos h] at hc
      simp at hc
      subst hc
      exact mem_decDigits_of_lt n h
    · rw [natDigits, if_neg h] at hc
      simp at hc
      rcases hc with hc | hc
      · exact ih (n / 10) (Nat.div_lt_self (by omega) (by omega)) c hc
      · subst hc
        exact mem_decDigits_of_lt (n % 10) (Nat.mod_lt n (by omega))

theorem natDigits_ne_nil (n : Nat) : natDigits n ≠ [] := by
  rw [natDigits]
  by_cases h : n < 10 <;> simp [h]

theorem takeDigits_run (ds rest : List Char) (hds : ∀ c ∈ ds, c.isDigit = true)
    (hrest : noDigitHead rest) : takeDigits (ds ++ rest) = (ds, rest) := by
  induction ds with
  | nil =>
    cases rest with
    | nil => rfl
    | cons c t =>
      have := hrest c rfl
      simp [takeDigits, this]
  | cons c t ih =>
    have hc := hds c (by simp)
    have ih2 := ih (fun c2 h2 => hds c2 (by simp [h2]))
    simp [takeDigits, hc, ih2]

theorem ofNat_digit_toNat (m : Nat) (h : m < 10) : (Char.ofNat (48 + m)).toNat = 48 + m := by
  interval_cases m <;> decide

theorem digitsVal_append_digit (ds : List Char) (c : Char) :
    digitsVal (ds ++ [c]) = 10 * digitsVal ds + (c.toNat - 48) := by
  simp [digitsVal, List.foldl_append]

theorem digitsVal_natDigits (n : Nat) : digitsVal (natDigits n) = n := by
  induction n using Nat.strong_induction_on with
  | _ n ih =>
    by_cases h : n < 10
    · rw [natDigits, if_pos h]
      simp [digitsVal]
      rw [ofNat_digit_toNat n h]
      omega
    · rw [natDigits, if_neg h, digitsVal_append_digit,
        ih (n / 10) (Nat.div_lt_self (by omega) (by omega)),
        ofNat_digit_toNat (n % 10) (Nat.mod_lt n (by omega))]
      omega

theorem hexVal_hexDigit (m : Nat) (h : m < 16) : hexVal (hexDigit m) = some m := by
  interval_cases m <;> decide

theorem parseStrBody_quote (r : List Char) : parseStrBody ('"' :: r) = some ([], r) := by
  simp [parseStrBody.eq_def]

theorem parseStrBody_escape (e d : Char) (r : List Char)
    (he : e ≠ 'u') (hu : unescSimple e = some d) :
    parseStrBody ('\\' :: e :: r)
      = (match parseStrBody r with
        | some (cs, r2) => some (d :: cs, r2)
        | none => none) := by
  rw [parseStrBody.eq_def]
  simp [he, hu]

theorem parseStrBody_raw (c : Char) (r : List Char) (h1 : c ≠ '"') (h2 : c ≠ '\\')
    (h3 : ¬ c.toNat < 32) :
    parseStrBody (c :: r)
      = (match parseStrBody r with
        | some (cs, r2) => some (c :: cs, r2)
        | none => none) := by
  rw [parseStrBody.eq_def]
  simp [h1, h2, h3]

theorem parseStrBody_unicode (m : Nat) (hm : m < 65536) (r : List Char) :
    parseStrBody ('\\' :: 'u' :: (hex4 m ++ r))
      = (match parseStrBody r with
        | some (cs, r2) => some (Char.ofNat m :: cs, r2)
        | none => none) := by
  rw [parseStrBody.eq_def]
  have ha : m / 4096 % 16 < 16 := by omega
  have hb : m / 256 % 16 < 16 := by omega
  have hc : m / 16 % 16 < 16 := by omega
  have hd : m % 16 < 16 := by omega
  have hrec : 4096 * (m / 4096 % 16) + 256 * (m / 256 % 16) + 16 * (m / 16 % 16) + m % 16
      = m := by omega
  simp only [hex4, List.cons_append, List.nil_append]
  simp [hexVal_hexDigit _ ha, hexVal_hexDigit _ hb, hexVal_hexDigit _ hc, hexVal_hexDigit _ hd,
    hrec]

/-- Parsing undoes escaping: the serialized string body followed by the
closing quote and any suffix parses back to the original characters. -/
theorem parseStrBody_escStr (cs rest : List Char) :
    parseStrBody (escStr cs ++ '"' :: rest) = some (cs, rest) := by
  induction cs with
  | nil =>
    simp only [escStr, List.nil_append]
    exact parseStrBody_quote rest
  | cons c t ih =>
    show parseStrBody ((escChar c ++ escStr t) ++ '"' :: rest) = _
    rw [escChar]
    by_cases h1 : c = '"'
    · subst h1
      rw [if_pos rfl]
      simp only [List.cons_append, List.nil_append, List.append_assoc]
      rw [parseStrBody_escape '"' '"' _ (by decide) (by decide), ih]
    rw [if_neg h1]
    by_cases h2 : c = '\\'
    · subst h2
      rw [if_pos rfl]
      simp only [List.cons_append, List.nil_append, List.append_assoc]
      rw [parseStrBody_escape '\\' '\\' _ (by decide) (by decide), ih]
    rw [if_neg h2]
    by_cases h3 : c = Char.ofNat 8
    · rw [if_pos h3]
      simp only [List.cons_append, List.nil_append, List.append_assoc]
      rw [parseStrBody_escape 'b' (Char.ofNat 8) _ (by decide) (by decide), ih, h3]
    rw [if_neg h3]
    by_cases h4 : c = Char.ofNat 12
    · rw [if_pos h4]
      simp only [List.cons_append, List.nil_append, List.append_assoc]
      rw [parseStrBody_escape 'f' (Char.ofNat 12) _ (by decide) (by decide), ih, h4]
    rw [if_neg h4]
    by_cases h5 : c = '\n'
    · subst h5
      rw [if_pos rfl]
      simp only [List.cons_append, List.nil_append, List.append_assoc]
      rw [parseStrBody_escape 'n' '\n' _ (by decide) (by decide), ih]
    rw [if_neg h5]
    by_cases h6 : c = '\r'
    · subst h6
      rw [if_pos rfl]
      simp only [List.cons_append, List.nil_append, List.append_assoc]
      rw [parseStrBody_escape 'r' '\r' _ (by decide) (by decide), ih]
    rw [if_neg h6]
    by_cases h7 : c = '\t'
    · subst h7
      rw [if_pos rfl]
      simp only [List.cons_append, List.nil_append, List.append_assoc]
      rw [parseStrBody_escape 't' '\t' _ (by decide) (by decide), ih]
    rw [if_neg h7]
    by_cases h8 : c.toNat < 32
    · rw [if_pos h8]
      have h16 : c.toNat < 65536 := by omega
      simp only [List.cons_append, List.nil_append, List.append_assoc]
      rw [parseStrBody_unicode c.toNat h16 _, ih, Char.ofNat_toNat]
    · rw [if_neg h8]
      simp only [List.cons_append, List.nil_append, List.append_assoc]
      rw [parseStrBody_raw c _ h1 h2 h8, ih]

theorem ws_not_digit (c : Char) (h : isWsChar c = true) : c.isDigit = false := by
  simp [isWsChar] at h
  rcases h with ((rfl | rfl) | rfl) | rfl <;> decide

theorem decDigits_facts : ∀ c ∈ decDigits, c.isDigit = true ∧ isWsChar c = false
    ∧ c ≠ '"' ∧ c ≠ '[' ∧ c ≠ ']' ∧ c ≠ lbraceChar ∧ c ≠ rbraceChar
    ∧ c ≠ 'n' ∧ c ≠ 't' ∧ c ≠ 'f' ∧ c ≠ '-' := by decide

theorem natDigits_isDigitRun (n : Nat) : ∀ c ∈ natDigits n, c.isDigit = true :=
  fun c hc => (decDigits_facts c (natDigits_mem n c hc)).1

theorem takeDigits_natDigits (n : Nat) (rest : List Char) (hrest : noDigitHead rest) :
    takeDigits (natDigits n ++ rest) = (natDigits n, rest) :=
  takeDigits_run (natDigits n) rest (natDigits_isDigitRun n) hrest

theorem jfuel_pos (v : Json) : 1 ≤ jfuel v := by
  cases v with
  | arr l => cases l <;> simp [jfuel]
  | obj l => cases l <;> simp [jfuel]
  | null => simp [jfuel]
  | bool b => simp [jfuel]
  | num i => simp [jfuel]
  | str s => simp [jfuel]

theorem jfuelItems_cons_pos (x : Json) (xs : List Json) : 1 ≤ jfuelItems (x :: xs) := by
  simp [jfuelItems]

theorem jfuelMembers_cons_pos (m : String × Json) (ms : List (String × Json)) :
    1 ≤ jfuelMembers (m :: ms) := by
  cases m
  simp [jfuelMembers]

theorem noDigitHead_items_tail (k : Nat) (xs : List Json) (ws2 rest : List Char)
    (h : wsRun ws2) : noDigitHead (serItems k xs ++ ws2 ++ ']' :: rest) := by
  cases xs with
  | nil =>
    rw [serItems]
    cases ws2 with
    | nil =>
      intro c hc
      simp at hc
      subst hc
      decide
    | cons w t =>
      intro c hc
      simp at hc
      subst hc
      exact ws_not_digit w (h w (by simp))
  | cons x2 xs2 =>
    rw [serItems]
    intro c hc
    simp at hc
    subst hc
    decide

theorem noDigitHead_members_tail (k : Nat) (ms : List (String × Json)) (ws2 rest : List Char)
    (h : wsRun ws2) : noDigitHead (serMembers k ms ++ ws2 ++ rbraceChar :: rest) := by
  cases ms with
  | nil =>
    rw [serMembers]
    cases ws2 with
    | nil =>
      intro c hc
      simp at hc
      subst hc
      decide
    | cons w t =>
      intro c hc
      simp at hc
      subst hc
      exact ws_not_digit w (h w (by simp))
  | cons m2 ms2 =>
    rw [serMembers]
    intro c hc
    simp at hc
    subst hc
    decide

theorem serVal_head_facts (k : Nat) (v : Json) :
    ∃ c t, serVal k v = c :: t ∧ isWsChar c = false ∧ c ≠ ']' := by
  cases v with
  | null => exact ⟨'n', ['u', 'l', 'l'], by rw [serVal], by decide, by decide⟩
  | bool b =>
    cases b with
    | false => exact ⟨'f', ['a', 'l', 's', 'e'], by rw [serVal], by decide, by decide⟩
    | true => exact ⟨'t', ['r', 'u', 'e'], by rw [serVal], by decide, by decide⟩
  | num i =>
    rcases i with m | m
    · obtain ⟨c, t, hct⟩ := List.exists_cons_of_ne_nil (natDigits_ne_nil m)
      have hmem := natDigits_mem m c (by rw [hct]; exact List.mem_cons_self _ _)
      have hf := decDigits_facts c hmem
      refine ⟨c, t, ?_, hf.2.1, hf.2.2.2.2.1⟩
      rw [serVal, intChars,
        if_neg (show ¬ Int.ofNat m < 0 from Int.not_lt.mpr (Int.ofNat_nonneg m))]
      simpa using hct
    · refine ⟨'-', natDigits (m + 1), ?_, by decide, by decide⟩
      rw [serVal, intChars, if_pos (Int.negSucc_lt_zero m)]
      simp
  | str s => exact ⟨'"', escStr s.data ++ ['"'], by rw [serVal], by decide, by decide⟩
  | arr l =>
    cases l with
    | nil => exact ⟨'[', [']'], by rw [serVal], by decide, by decide⟩
    | cons x xs =>
      exact ⟨'[', indentChars (k + 1) ++ serVal (k + 1) x ++ serItems (k + 1) xs
        ++ indentChars k ++ [']'], by rw [serVal], by decide, by decide⟩
  | obj l =>
    cases l with
    | nil => exact ⟨lbraceChar, [rbraceChar], by rw [serVal], by decide, by decide⟩
    | cons m ms =>
      exact ⟨lbraceChar, indentChars (k + 1) ++ serMember (k + 1) m ++ serMembers (k + 1) ms
        ++ indentChars k ++ [rbraceChar], by rw [serVal], by decide, by decide⟩

/-- The master round-trip lemma: with enough fuel, `parseVal` consumes
exactly the serialization of a value (after any leading whitespace) and
returns that value with the untouched suffix; likewise `parseItems` and
`parseMembers` on serialized element runs up to the closing bracket. -/
theorem parse_ser_master (n : Nat) :
    (∀ v k ws rest, wsRun ws → noDigitHead rest → jfuel v ≤ n →
      parseVal n (ws ++ serVal k v ++ rest) = some (v, rest))
    ∧ (∀ x xs k ws1 ws2 rest, wsRun ws1 → wsRun ws2 → jfuelItems (x :: xs) ≤ n →
      parseItems n (ws1 ++ serVal k x ++ serItems k xs ++ ws2 ++ ']' :: rest)
        = some (x :: xs, rest))
    ∧ (∀ key v ms k ws1 ws2 rest, wsRun ws1 → wsRun ws2 →
      jfuelMembers ((key, v) :: ms) ≤ n →
      parseMembers n (ws1 ++ serMember k (key, v) ++ serMembers k ms ++ ws2
          ++ rbraceChar :: rest)
        = some ((key, v) :: ms, rest)) := by
  induction n with
  | zero =>
    refine ⟨?_, ?_, ?_⟩
    · intro v k ws rest _ _ hfuel
      exact absurd (le_trans (jfuel_pos v) hfuel) (by omega)
    · intro x xs k ws1 ws2 rest _ _ hfuel
      exact absurd (le_trans (jfuelItems_cons_pos x xs) hfuel) (by omega)
    · intro key v ms k ws1 ws2 rest _ _ hfuel
      exact absurd (le_trans (jfuelMembers_cons_pos (key, v) ms) hfuel) (by omega)
  | succ n ih =>
    obtain ⟨ihP, ihQ, ihR⟩ := ih
    refine ⟨?_, ?_, ?_⟩
    · -- parseVal on a serialized value
      intro v k ws rest hws hrest hfuel
      cases v with
      | null =>
        rw [serVal, parseVal]
        simp only [List.cons_append, List.nil_append, List.append_assoc]
        rw [skipWs_append _ _ hws, skipWs_cons_not _ _ (by decide)]
        simp [lbraceChar]
      | bool b =>
        cases b with
        | true =>
          rw [serVal, parseVal]
          simp only [List.cons_append, List.nil_append, List.append_assoc]
          rw [skipWs_append _ _ hws, skipWs_cons_not _ _ (by decide)]
          simp [lbraceChar]
        | false =>
          rw [serVal, parseVal]
          simp only [List.cons_append, List.nil_append, List.append_assoc]
          rw [skipWs_append _ _ hws, skipWs_cons_not _ _ (by decide)]
          simp [lbraceChar]
      | str s =>
        rw [serVal, parseVal]
        simp only [List.cons_append, List.nil_append, List.append_assoc]
        rw [skipWs_append _ _ hws, skipWs_cons_not _ _ (by decide)]
        simp [lbraceChar, parseStrBody_escStr]
      | num i =>
        rcases i with m | m
        · obtain ⟨c, t, hct⟩ := List.exists_cons_of_ne_nil (natDigits_ne_nil m)
          obtain ⟨hdig, hwsc, hne1, hne2, hne3, hne4, hne5, hne6, hne7, hne8, hne9⟩ :=
            decDigits_facts c (natDigits_mem m c (by rw [hct]; exact List.mem_cons_self _ _))
          rw [serVal, parseVal, intChars,
            if_neg (show ¬ Int.ofNat m < 0 from Int.not_lt.mpr (Int.ofNat_nonneg m))]
          rw [show (Int.ofNat m).natAbs = m from rfl, hct]
          simp only [List.cons_append, List.nil_append, List.append_assoc]
          rw [skipWs_append _ _ hws, skipWs_cons_not _ _ hwsc]
          simp only [if_neg hne1, if_neg hne2, if_neg hne4, if_neg hne6, if_neg hne7,
            if_neg hne8, if_neg hne9, if_pos hdig]
          rw [show c :: (t ++ rest) = (c :: t) ++ rest from rfl, ← hct,
            takeDigits_natDigits m rest hrest]
          simp [digitsVal_natDigits]
        · obtain ⟨c, t, hct⟩ := List.exists_cons_of_ne_nil (natDigits_ne_nil (m + 1))
          rw [serVal, parseVal, intChars, if_pos (Int.negSucc_lt_zero m)]
          rw [show (Int.negSucc m).natAbs = m + 1 from rfl]
          simp only [List.cons_append, List.nil_append, List.append_assoc]
          rw [skipWs_append _ _ hws, skipWs_cons_not _ _ (by decide)]
          simp only [if_neg (by decide : ¬ ('-' : Char) = '"'),
            if_neg (by decide : ¬ ('-' : Char) = '['),
            if_neg (by decide : ¬ ('-' : Char) = lbraceChar),
            if_neg (by decide : ¬ ('-' : Char) = 'n'),
            if_neg (by decide : ¬ ('-' : Char) = 't'),
            if_neg (by decide : ¬ ('-' : Char) = 'f'),
            if_pos (rfl : ('-' : Char) = '-')]
          rw [takeDigits_natDigits (m + 1) rest hrest, hct]
          have hneg : Int.negSucc m = -((m + 1 : Nat) : Int) := by
            rw [Int.negSucc_eq]
            push_cast
            ring
          simp [← hct, digitsVal_natDigits, hneg]
      | arr l =>
        cases l with
        | nil =>
          rw [serVal, parseVal]
          simp only [List.cons_append, List.nil_append, List.append_assoc]
          rw [skipWs_append _ _ hws, skipWs_cons_not _ _ (by decide)]
          simp [lbraceChar, rbraceChar, skipWs, isWsChar]
        | cons x xs =>
          rw [jfuel] at hfuel
          obtain ⟨c, t, hct, hcw, hcne⟩ := serVal_head_facts (k + 1) x
          rw [serVal, parseVal]
          simp only [List.cons_append, List.nil_append, List.append_assoc]
          rw [skipWs_append _ _ hws, skipWs_cons_not _ _ (by decide)]
          simp only [show ('[' : Char) = '"' ↔ False from by simp, iff_false,
            if_neg (by decide : ¬ ('[' : Char) = '"'), if_pos rfl]
          rw [skipWs_append _ _ (indentChars_wsRun (k + 1)), hct]
          simp only [List.cons_append, skipWs_cons_not _ _ hcw, if_neg hcne]
          rw [← List.cons_append, ← hct]
          have hQ := ihQ x xs (k + 1) [] (indentChars k) rest (by intro c2 hc2; simp at hc2)
            (indentChars_wsRun k) (by omega)
          simp only [List.nil_append, List.append_assoc] at hQ
          rw [hQ]
          simp
      | obj l =>
        cases l with
        | nil =>
          rw [serVal, parseVal]
          simp only [List.cons_append, List.nil_append, List.append_assoc]
          rw [skipWs_append _ _ hws, skipWs_cons_not _ _ (by decide)]
          simp [lbraceChar, rbraceChar, skipWs, isWsChar]
        | cons m ms =>
          rw [jfuel] at hfuel
          rcases m with ⟨key, v⟩
          rw [serVal, parseVal]
          simp only [List.cons_append, List.nil_append, List.append_assoc]
          rw [skipWs_append _ _ hws, skipWs_cons_not _ _ (by decide)]
          simp only [if_neg (by decide : ¬ lbraceChar = '"'),
            if_neg (by decide : ¬ lbraceChar = '['), if_pos rfl]
          rw [skipWs_append _ _ (indentChars_wsRun (k + 1)), serMember]
          simp only [List.cons_append, skipWs_cons_not _ _ (by decide : isWsChar '"' = false),
            if_neg (by decide : ¬ ('"' : Char) = rbraceChar)]
          rw [← List.cons_append, ← serMember]
          have hR := ihR key v ms (k + 1) [] (indentChars k) rest (by intro c2 hc2; simp at hc2)
            (indentChars_wsRun k) (by omega)
          simp only [List.nil_append, List.append_assoc] at hR
          rw [hR]
          simp
    · -- parseItems on serialized items
      intro x xs k ws1 ws2 rest hws1 hws2 hfuel
      rw [jfuelItems] at hfuel
      rw [parseItems]
      have hP := ihP x k ws1 (serItems k xs ++ ws2 ++ ']' :: rest) hws1
        (noDigitHead_items_tail k xs ws2 rest hws2) (by omega)
      simp only [List.append_assoc] at hP ⊢
      rw [hP]
      cases xs with
      | nil =>
        rw [serItems]
        simp only [List.nil_append]
        rw [skipWs_append _ _ hws2, skipWs_cons_not _ _ (by decide)]
        rfl
      | cons x2 xs2 =>
        rw [serItems]
        simp only [List.cons_append, List.append_assoc]
        rw [skipWs_cons_not _ _ (by decide)]
        have hQ := ihQ x2 xs2 k (indentChars k) ws2 rest (indentChars_wsRun k) hws2 (by omega)
        simp only [List.append_assoc] at hQ
        simp [hQ]
    · -- parseMembers on serialized members
      intro key v ms k ws1 ws2 rest hws1 hws2 hfuel
      rw [jfuelMembers] at hfuel
      rw [parseMembers, serMember]
      simp only [List.cons_append, List.nil_append, List.append_assoc]
      rw [skipWs_append _ _ hws1, skipWs_cons_not _ _ (by decide)]
      have hP := ihP v k [' '] (serMembers k ms ++ ws2 ++ rbraceChar :: rest)
        (by intro c2 hc2; simp at hc2; subst hc2; rfl)
        (noDigitHead_members_tail k ms ws2 rest hws2) (by omega)
      simp only [List.cons_append, List.nil_append, List.append_assoc] at hP
      have hws2all : ∀ r, skipWs (ws2 ++ r) = skipWs r := fun r => skipWs_append ws2 r hws2
      cases ms with
      | nil =>
        simp only [serMembers, List.nil_append, rbraceChar] at hP
        simp [parseStrBody_escStr, hP, serMembers, hws2all, skipWs, isWsChar, rbraceChar]
      | cons m2 ms2 =>
        rcases m2 with ⟨key2, v2⟩
        have hR := ihR key2 v2 ms2 k (indentChars k) ws2 rest (indentChars_wsRun k) hws2
          (by omega)
        simp only [List.append_assoc] at hR
        simp only [serMembers, List.cons_append, List.append_assoc] at hP
        simp [parseStrBody_escStr, hP, serMembers, skipWs, isWsChar, hR]

theorem intChars_ne_nil (i : Int) : intChars i ≠ [] := by
  rw [intChars]
  by_cases h : i < 0
  · simp [h]
  · simp [h, natDigits_ne_nil]

/-- The fuel bound is covered by the serialized length (each fuel unit
corresponds to at least one emitted character). -/
theorem jfuel_le_len_aux (N : Nat) :
    (∀ v k, sizeOf v ≤ N → jfuel v ≤ (serVal k v).length)
    ∧ (∀ l k, sizeOf l ≤ N → jfuelItems l ≤ (serItems k l).length)
    ∧ (∀ ms k, sizeOf ms ≤ N → jfuelMembers ms ≤ (serMembers k ms).length) := by
  induction N with
  | zero =>
    refine ⟨?_, ?_, ?_⟩
    · intro v k hsz
      exfalso
      cases v <;> simp at hsz
    · intro l k hsz
      exfalso
      cases l <;> simp at hsz
    · intro ms k hsz
      exfalso
      cases ms <;> simp at hsz
  | succ N ihN =>
    obtain ⟨ihV, ihL, ihM⟩ := ihN
    refine ⟨?_, ?_, ?_⟩
    · intro v k hsz
      cases v with
      | null => simp [jfuel, serVal]
      | bool b => cases b <;> simp [jfuel, serVal]
      | num i =>
        have := intChars_ne_nil i
        have : 0 < (intChars i).length := List.length_pos.mpr this
        simp [jfuel, serVal]
        omega
      | str s => simp [jfuel, serVal]
      | arr l =>
        cases l with
        | nil => simp [jfuel, serVal]
        | cons x xs =>
          have hx : sizeOf (x :: xs) ≤ N := by
            simp at hsz
            simp
            omega
          have h1 := ihL (x :: xs) (k + 1) hx
          rw [jfuel, serVal]
          rw [serItems] at h1
          simp [List.length_append, indentChars] at h1 ⊢
          omega
      | obj l =>
        cases l with
        | nil => simp [jfuel, serVal]
        | cons m ms =>
          have hm : sizeOf (m :: ms) ≤ N := by
            simp at hsz
            simp
            omega
          have h1 := ihM (m :: ms) (k + 1) hm
          rcases m with ⟨key, v⟩
          rw [jfuel, serVal]
          rw [serMembers] at h1
          simp [List.length_append, indentChars] at h1 ⊢
          omega
    · intro l k hsz
      cases l with
      | nil => simp [jfuelItems, serItems]
      | cons x xs =>
        have hx : sizeOf x ≤ N := by simp at hsz; omega
        have hxs : sizeOf xs ≤ N := by simp at hsz; omega
        have h1 := ihV x k hx
        have h2 := ihL xs k hxs
        rw [jfuelItems, serItems]
        simp [List.length_append, indentChars]
        omega
    · intro ms k hsz
      cases ms with
      | nil => simp [jfuelMembers, serMembers]
      | cons m ms2 =>
        rcases m with ⟨key, v⟩
        have hv : sizeOf v ≤ N := by simp at hsz; omega
        have hms : sizeOf ms2 ≤ N := by simp at hsz; omega
        have h1 := ihV v k hv
        have h2 := ihM ms2 k hms
        rw [jfuelMembers, serMembers, serMember]
        simp [List.length_append, indentChars]
        omega

theorem jfuel_le_serVal (v : Json) (k : Nat) : jfuel v ≤ (serVal k v).length :=
  (jfuel_le_len_aux (sizeOf v)).1 v k le_rfl

/-- C9: pretty-printing a JSON value through the `call_tool` formatting
step (`json.dumps(result, indent=2, ensure_ascii=False)`) and parsing the
text back yields a structurally equal value, for every JSON value of the
embedding — mappings, lists, strings (non-ASCII included), integers,
booleans and null. -/
theorem dumps_parse_roundtrip (v : Json) : parseJson (dumps v) = some v := by
  have hlen : (dumps v).length = (serVal 0 v).length := rfl
  have hfu : jfuel v ≤ (dumps v).length + 1 := by
    have := jfuel_le_serVal v 0
    omega
  have hP := (parse_ser_master ((dumps v).length + 1)).1 v 0 [] []
    (by intro c hc; simp at hc) (by intro c hc; simp at hc) hfu
  simp only [List.nil_append, List.append_nil] at hP
  rw [parseJson, show (dumps v).data = serVal 0 v from rfl, hP]
  simp [skipWs]

end IntigritiServer
